import Mathlib

/-!
Verification of the menpo-widgets index animation driver and index widgets.

Shallow embedding of `src/menpowidgets/options.py` (class `AnimationOptionsWidget`)
and `src/menpowidgets/tools.py` (classes `IndexButtonsWidget`, `LogoWidget`).

Modelling conventions:

* Python integers are `ℤ`.
* `ipywidgets.BoundedIntText` clamps every assigned value into `[min, max]`
  (library behaviour of the ipywidgets dependency); this is `clampB` below.
* traitlets fires trait-change handlers only when the newly assigned value
  differs from the stored one; assigning an equal value is a no-op.
  In particular the render callback registered on `selected_values` fires
  exactly when the stored selected value actually changes.
* The `while` loops inside `animate` (options.py lines 202 to 253) are run
  with an explicit fuel argument bounding the number of iterations simulated;
  a run that exhausts its fuel reports `completed = false`.
* `kernel.do_one_iteration()` is the only point where external UI events are
  observed by the running loop.  The external events we model are stop clicks,
  given by a schedule `stop : Nat → Bool` (`stop k = true` means a stop click
  is delivered during the `do_one_iteration` of iteration `k`, which assigns
  `play_stop_toggle.value = False`).  `sleep` has no state effect.
* The logo scale of `LogoWidget` is a `ℚ` (the code only compares scales for
  equality, so exact rationals model the comparisons faithfully).
-/

/-- `ipywidgets.BoundedIntText` validation: values assigned to the text widget
are clamped into `[lo, hi]`. -/
def clampB (lo hi v : ℤ) : ℤ := Max.max lo (Min.min hi v)

/-- The options dictionary `{min, max, step, index}` passed to the widgets. -/
structure IndexDict where
  min : ℤ
  max : ℤ
  step : ℤ
  index : ℤ
deriving DecidableEq

/-- Counter update of the loop-enabled branch of `animate`
(options.py lines 206 to 209 and 224 to 227):
`if i < self.max: i += self.step else: i = self.min`. -/
def nextLoop (mn mx st i : ℤ) : ℤ := if i < mx then i + st else mn

/-- Result of running one of the `while` loops inside `animate`. -/
structure RunRes where
  /-- One entry per iteration: the value assigned to the index widget and the
  number of render callbacks that assignment fired (0 if the value was
  unchanged, else 1). -/
  log : List (ℤ × Nat)
  /-- The loop counter `i` after the loop. -/
  cur : ℤ
  /-- `play_stop_toggle.value` after the loop. -/
  playing : Bool
  /-- Whether the loop guard was actually observed false (`false` means the
  fuel ran out while the loop was still running). -/
  completed : Bool
deriving DecidableEq

/-- The `while` loop of the loop-enabled branch of `animate`
(options.py lines 211 to 230):
`while i <= self.max and self.play_stop_toggle.value:` assign `i` to the index
widget (clamped by `BoundedIntText`; fires one render iff the value changed),
run `kernel.do_one_iteration()` (which may deliver a stop click), update the
counter with `nextLoop`, sleep.  `sel` is the current synced selected value
(`index_text.value` = `index_wid.selected_values` = `self.selected_values`,
kept in sync by the `save_index` / `save_value` observers),
`k` counts iterations for the stop schedule. -/
def runLoop (mn mx st : ℤ) (stop : Nat → Bool) :
    Nat → ℤ → ℤ → Bool → Nat → RunRes
  | 0, i, _sel, p, _k =>
      if i ≤ mx ∧ p = true then ⟨[], i, p, false⟩ else ⟨[], i, p, true⟩
  | fuel + 1, i, sel, p, k =>
      if i ≤ mx ∧ p = true then
        let v := clampB mn mx i
        let r : Nat := if v = sel then 0 else 1
        let q : Bool := if stop k then false else p
        let rest := runLoop mn mx st stop fuel (nextLoop mn mx st i) v q (k + 1)
        ⟨(v, r) :: rest.log, rest.cur, rest.playing, rest.completed⟩
      else ⟨[], i, p, true⟩

/-- The `while` loop of the loop-disabled branch of `animate`
(options.py lines 235 to 251): identical to `runLoop` except that the counter
update is `i += self.step` with no wrap. -/
def runNoLoop (mn mx st : ℤ) (stop : Nat → Bool) :
    Nat → ℤ → ℤ → Bool → Nat → RunRes
  | 0, i, _sel, p, _k =>
      if i ≤ mx ∧ p = true then ⟨[], i, p, false⟩ else ⟨[], i, p, true⟩
  | fuel + 1, i, sel, p, k =>
      if i ≤ mx ∧ p = true then
        let v := clampB mn mx i
        let r : Nat := if v = sel then 0 else 1
        let q : Bool := if stop k then false else p
        let rest := runNoLoop mn mx st stop fuel (i + st) v q (k + 1)
        ⟨(v, r) :: rest.log, rest.cur, rest.playing, rest.completed⟩
      else ⟨[], i, p, true⟩

/-- The body of `animate(name, value)` when `play_stop_toggle` changes to
`True` (options.py lines 202 to 253).  `sel` is `self.selected_values` at
entry, `loop` is `self.loop_checkbox.value`.  Returns the per-tick log and the
value of `play_stop_toggle.value` afterwards.  The loop-enabled branch seeds
the counter with `nextLoop` applied to the selected value (lines 205 to 209);
the loop-disabled branch seeds it with `sel + step` (lines 233 to 234) and,
once its `while` loop has exited, runs
`if i > self.max: self.play_stop_toggle.value = False` (lines 252 to 253). -/
def animate (mn mx st sel : ℤ) (loop : Bool) (stop : Nat → Bool)
    (fuel : Nat) : List (ℤ × Nat) × Bool :=
  if loop then
    let r := runLoop mn mx st stop fuel (nextLoop mn mx st sel) sel true 0
    (r.log, r.playing)
  else
    let r := runNoLoop mn mx st stop fuel (sel + st) sel true 0
    (r.log, if r.completed = true ∧ mx < r.cur then false else r.playing)

/-- No external events: the stop button is never clicked. -/
def noStop : Nat → Bool := fun _ => false

/-- A single stop click delivered during iteration 5 (the sixth tick). -/
def stopAt5 : Nat → Bool := fun k => k == 5

/-- Pure tick-value sequence of the loop-enabled branch: the value assigned at
tick `k` when the loop is never interrupted. -/
def vseqL (mn mx st sel : ℤ) (k : Nat) : ℤ :=
  (nextLoop mn mx st)^[k + 1] sel

/-- The period `(max - min) / step + 1` from the specification. -/
def periodL (mn mx st : ℤ) : Nat := ((mx - mn) / st).toNat + 1

/-! ### Basic lemmas about the runners -/

theorem clampB_eq_self (lo hi v : ℤ) (h1 : lo ≤ v) (h2 : v ≤ hi) :
    clampB lo hi v = v := by
  simp [clampB, max_eq_right, min_eq_right, h1, h2]

theorem runLoop_not_playing (mn mx st : ℤ) (stop : Nat → Bool) (fuel : Nat)
    (i sel : ℤ) (k : Nat) :
    runLoop mn mx st stop fuel i sel false k = ⟨[], i, false, true⟩ := by
  cases fuel <;> simp [runLoop]

theorem runNoLoop_not_playing (mn mx st : ℤ) (stop : Nat → Bool) (fuel : Nat)
    (i sel : ℤ) (k : Nat) :
    runNoLoop mn mx st stop fuel i sel false k = ⟨[], i, false, true⟩ := by
  cases fuel <;> simp [runNoLoop]

theorem runLoop_cons (mn mx st : ℤ) (stop : Nat → Bool) (fuel : Nat)
    (i sel : ℤ) (k : Nat) (hg : i ≤ mx) :
    runLoop mn mx st stop (fuel + 1) i sel true k =
      ⟨(clampB mn mx i, if clampB mn mx i = sel then 0 else 1) ::
          (runLoop mn mx st stop fuel (nextLoop mn mx st i) (clampB mn mx i)
            (if stop k then false else true) (k + 1)).log,
        (runLoop mn mx st stop fuel (nextLoop mn mx st i) (clampB mn mx i)
          (if stop k then false else true) (k + 1)).cur,
        (runLoop mn mx st stop fuel (nextLoop mn mx st i) (clampB mn mx i)
          (if stop k then false else true) (k + 1)).playing,
        (runLoop mn mx st stop fuel (nextLoop mn mx st i) (clampB mn mx i)
          (if stop k then false else true) (k + 1)).completed⟩ := by
  simp [runLoop, hg]

theorem runNoLoop_cons (mn mx st : ℤ) (stop : Nat → Bool) (fuel : Nat)
    (i sel : ℤ) (k : Nat) (hg : i ≤ mx) :
    runNoLoop mn mx st stop (fuel + 1) i sel true k =
      ⟨(clampB mn mx i, if clampB mn mx i = sel then 0 else 1) ::
          (runNoLoop mn mx st stop fuel (i + st) (clampB mn mx i)
            (if stop k then false else true) (k + 1)).log,
        (runNoLoop mn mx st stop fuel (i + st) (clampB mn mx i)
          (if stop k then false else true) (k + 1)).cur,
        (runNoLoop mn mx st stop fuel (i + st) (clampB mn mx i)
          (if stop k then false else true) (k + 1)).playing,
        (runNoLoop mn mx st stop fuel (i + st) (clampB mn mx i)
          (if stop k then false else true) (k + 1)).completed⟩ := by
  simp [runNoLoop, hg]

theorem runLoop_stopGuard (mn mx st : ℤ) (stop : Nat → Bool) (fuel : Nat)
    (i sel : ℤ) (k : Nat) (hg : ¬ (i ≤ mx)) :
    runLoop mn mx st stop fuel i sel true k = ⟨[], i, true, true⟩ := by
  cases fuel <;> simp [runLoop, hg]

theorem runNoLoop_stopGuard (mn mx st : ℤ) (stop : Nat → Bool) (fuel : Nat)
    (i sel : ℤ) (k : Nat) (hg : ¬ (i ≤ mx)) :
    runNoLoop mn mx st stop fuel i sel true k = ⟨[], i, true, true⟩ := by
  cases fuel <;> simp [runNoLoop, hg]

/-- Full characterization of the loop-disabled `while` loop with no stop
clicks: starting the counter at `i` with `N` in-range steps ahead, the loop
performs exactly `N` ticks `i, i + st, ..., i + (N-1)·st`, each firing one
render, and exits with the counter at `i + N·st`. -/
theorem runNoLoop_run (mn mx st : ℤ) (hst : 0 < st) :
    ∀ (N : Nat) (m : Nat) (i sel : ℤ) (k : Nat), mn ≤ i → sel < i →
      (∀ j : Nat, j < N → i + (j : ℤ) * st ≤ mx) → mx < i + (N : ℤ) * st →
      runNoLoop mn mx st noStop (N + m) i sel true k =
        ⟨(List.range N).map (fun (j : Nat) => ((i + (j : ℤ) * st : ℤ), (1 : Nat))),
          i + (N : ℤ) * st, true, true⟩ := by
  intro N
  induction N with
  | zero =>
      intro m i sel k _ _ _ hN
      have hg : ¬ (i ≤ mx) := by push_cast at hN; omega
      simp [runNoLoop_stopGuard mn mx st noStop m i sel k hg]
  | succ N ih =>
      intro m i sel k hmn hsel hin hN
      have hg : i ≤ mx := by
        have := hin 0 (Nat.succ_pos N)
        push_cast at this; omega
      have hv : clampB mn mx i = i := clampB_eq_self mn mx i hmn hg
      have hne : ¬ (i = sel) := by omega
      have hrec := ih m (i + st) i (k + 1) (by omega) (by omega)
        (fun j hj => by
          have := hin (j + 1) (by omega)
          push_cast at this ⊢; linarith)
        (by push_cast at hN ⊢; linarith)
      rw [Nat.add_right_comm N 1 m, runNoLoop_cons mn mx st noStop (N + m) i sel k hg]
      simp only [hv, noStop, Bool.false_eq_true, ite_false, hrec, RunRes.mk.injEq,
        List.range_succ_eq_map, List.map_cons, List.map_map, List.cons.injEq,
        Prod.mk.injEq]
      refine ⟨⟨⟨by push_cast; ring, by simp [hne]⟩, ?_⟩, by push_cast; ring, trivial, trivial⟩
      refine List.map_congr_left (fun j _ => ?_)
      simp only [Function.comp_apply, Prod.mk.injEq]
      exact ⟨by push_cast; ring, trivial⟩

/-! ### C1: the loop-disabled animation -/

/-- C1: for every valid range with loop disabled, starting the animation
produces the index sequence `current + step, current + 2·step, ...`
(one render per tick), each value at most `max`; the play/stop flag is reset
to `false` exactly when the next value would exceed `max` (after
`N = (max - current) / step` ticks); the final selected index is
`current + N·step`; and starting with `current = max` gives `N = 0`:
no tick, no index change, and an immediate transition to Idle. -/
theorem C1_noLoop_animation (mn mx st sel : ℤ) (hst : 0 < st) (hlo : mn ≤ sel)
    (hhi : sel ≤ mx) :
    ∀ m : Nat,
      (animate mn mx st sel false noStop (((mx - sel) / st).toNat + m)).1 =
        (List.range ((mx - sel) / st).toNat).map
          (fun (j : Nat) => ((sel + ((j : ℤ) + 1) * st : ℤ), (1 : Nat))) ∧
      (animate mn mx st sel false noStop (((mx - sel) / st).toNat + m)).2 = false ∧
      (∀ j : Nat, j < ((mx - sel) / st).toNat → sel + ((j : ℤ) + 1) * st ≤ mx) ∧
      mx < sel + ((((mx - sel) / st).toNat : ℤ) + 1) * st ∧
      ((animate mn mx st sel false noStop
            (((mx - sel) / st).toNat + m)).1.map Prod.fst).getLast?.getD sel =
        sel + (((mx - sel) / st).toNat : ℤ) * st ∧
      (sel = mx → ((mx - sel) / st).toNat = 0) := by
  intro m
  set q : ℤ := (mx - sel) / st with hqdef
  have hq0 : 0 ≤ q := Int.ediv_nonneg (by omega) hst.le
  have hNq : ((q.toNat : ℤ)) = q := Int.toNat_of_nonneg hq0
  have hkey : st * q + (mx - sel) % st = mx - sel := Int.ediv_add_emod (mx - sel) st
  have hr0 : 0 ≤ (mx - sel) % st := Int.emod_nonneg _ (ne_of_gt hst)
  have hrlt : (mx - sel) % st < st := Int.emod_lt_of_pos _ hst
  have hcomm : st * q = q * st := mul_comm st q
  have hin : ∀ j : Nat, j < q.toNat → (sel + st) + (j : ℤ) * st ≤ mx := by
    intro j hj
    have hj1 : (j : ℤ) + 1 ≤ q := by
      have : (j : ℤ) < (q.toNat : ℤ) := by exact_mod_cast hj
      omega
    have hmul : ((j : ℤ) + 1) * st ≤ q * st :=
      mul_le_mul_of_nonneg_right hj1 hst.le
    nlinarith
  have hN : mx < (sel + st) + ((q.toNat : ℤ)) * st := by
    rw [hNq]; nlinarith
  have hrun := runNoLoop_run mn mx st hst q.toNat m (sel + st) sel 0
    (by omega) (by omega) hin hN
  have hanim : animate mn mx st sel false noStop (q.toNat + m) =
      ((List.range q.toNat).map
          (fun (j : Nat) => ((sel + st + (j : ℤ) * st : ℤ), (1 : Nat))),
        false) := by
    simp only [animate, Bool.false_eq_true, if_false]
    rw [hrun]
    have hc : ((true : Bool) = true ∧ mx < sel + st + ((q.toNat : ℤ)) * st) := ⟨rfl, hN⟩
    rw [if_pos hc]
  have hmapeq : (List.range q.toNat).map
      (fun (j : Nat) => ((sel + st + (j : ℤ) * st : ℤ), (1 : Nat))) =
      (List.range q.toNat).map
        (fun (j : Nat) => ((sel + ((j : ℤ) + 1) * st : ℤ), (1 : Nat))) :=
    List.map_congr_left (fun j _ => by simp only [Prod.mk.injEq]; exact ⟨by ring, trivial⟩)
  refine ⟨by rw [hanim, hmapeq], by rw [hanim], ?_, ?_, ?_, ?_⟩
  · intro j hj
    have := hin j hj
    linarith
  · have h2 : sel + (((q.toNat : ℤ)) + 1) * st = sel + st + ((q.toNat : ℤ)) * st := by
      ring
    rw [h2]
    exact hN
  · rw [hanim, hmapeq]
    rcases Nat.eq_zero_or_pos q.toNat with h0 | hpos
    · simp [h0]
    · obtain ⟨n, hn⟩ : ∃ n, q.toNat = n + 1 := ⟨q.toNat - 1, by omega⟩
      rw [hn, List.range_succ, List.map_append, List.map_append]
      simp only [List.map_cons, List.map_nil, List.getLast?_concat, Option.getD_some]
      push_cast [hn]
      ring
  · intro heq
    have : q = 0 := by
      rw [hqdef, heq]
      simp
    omega

/-- Witness for C1 at the concrete scenario `{min 0, max 10, step 2,
current 0}` of the specification. -/
theorem C1_witness :
    ((0 : ℤ) < 2) ∧
    (animate 0 10 2 0 false noStop ((((10 : ℤ) - 0) / 2).toNat + 0)).1 =
      (List.range (((10 : ℤ) - 0) / 2).toNat).map
        (fun (j : Nat) => ((0 + ((j : ℤ) + 1) * 2 : ℤ), (1 : Nat))) :=
  ⟨by decide, ((C1_noLoop_animation 0 10 2 0 (by decide) (by decide) (by decide)) 0).1⟩

/-! ### C2: the loop-enabled animation -/

theorem runLoop_zero_log (mn mx st : ℤ) (stop : Nat → Bool) (i sel : ℤ)
    (p : Bool) (k : Nat) : (runLoop mn mx st stop 0 i sel p k).log = [] := by
  simp only [runLoop]
  split <;> rfl

theorem nextLoop_ge (mn mx st x : ℤ) (hst : 0 ≤ st) (h : mn ≤ x) :
    mn ≤ nextLoop mn mx st x := by
  unfold nextLoop
  split <;> omega

theorem nextLoop_iterate_ge (mn mx st x : ℤ) (hst : 0 ≤ st) (h : mn ≤ x) :
    ∀ j : Nat, mn ≤ (nextLoop mn mx st)^[j] x := by
  intro j
  induction j generalizing x with
  | zero => simpa using h
  | succ j ih =>
      rw [Function.iterate_succ_apply]
      exact ih (nextLoop mn mx st x) (nextLoop_ge mn mx st x hst h)

theorem nextLoop_iterate_climb (mn mx st : ℤ) (hst : 0 < st) :
    ∀ (e : Nat) (y : ℤ), y + (e : ℤ) * st ≤ mx →
      (nextLoop mn mx st)^[e] y = y + (e : ℤ) * st := by
  intro e
  induction e with
  | zero => intro y _; simp
  | succ e ih =>
      intro y h
      have he : 0 ≤ (e : ℤ) * st := mul_nonneg (Int.natCast_nonneg e) hst.le
      have hy : y < mx := by push_cast at h; nlinarith
      rw [Function.iterate_succ_apply]
      have hf : nextLoop mn mx st y = y + st := by simp [nextLoop, hy]
      rw [hf, ih (y + st) (by push_cast at h ⊢; linarith)]
      push_cast
      ring

/-- If `step` divides both `max - min` and `max - x` and `min ≤ x ≤ max`, then
`nextLoop` returns to `x` after exactly `(max - min) / step + 1` iterations:
the loop-enabled tick sequence is periodic with the period claimed by the
specification. -/
theorem nextLoop_iterate_period (mn mx st x : ℤ) (hst : 0 < st)
    (hd : st ∣ mx - mn) (h1 : mn ≤ x) (h2 : x ≤ mx) (ha : st ∣ mx - x) :
    (nextLoop mn mx st)^[periodL mn mx st] x = x := by
  obtain ⟨a, hA⟩ := ha
  obtain ⟨c, hC⟩ := hd
  have hB : x - mn = st * (c - a) := by rw [mul_sub]; linarith
  have ha0 : 0 ≤ a := by
    have h0 : st * 0 ≤ st * a := by rw [mul_zero]; linarith
    exact le_of_mul_le_mul_left h0 hst
  have hb0 : 0 ≤ c - a := by
    have h0 : st * 0 ≤ st * (c - a) := by rw [mul_zero]; linarith
    exact le_of_mul_le_mul_left h0 hst
  have hPc : periodL mn mx st = c.toNat + 1 := by
    unfold periodL
    rw [hC, Int.mul_ediv_cancel_left c (ne_of_gt hst)]
  have hsplit : c.toNat = (c - a).toNat + a.toNat := by omega
  have hP : periodL mn mx st = (c - a).toNat + (1 + a.toNat) := by
    rw [hPc, hsplit]; omega
  rw [hP, Function.iterate_add_apply, Function.iterate_add_apply]
  have hclimb1 : (nextLoop mn mx st)^[a.toNat] x = mx := by
    have hcast : ((a.toNat : ℤ)) = a := Int.toNat_of_nonneg ha0
    have := nextLoop_iterate_climb mn mx st hst a.toNat x
      (by rw [hcast]; linarith)
    rw [this, hcast]; linarith
  rw [hclimb1]
  have hmxstep : (nextLoop mn mx st)^[1] mx = mn := by
    simp [nextLoop]
  rw [hmxstep]
  have hcast2 : (((c - a).toNat : ℤ)) = c - a := Int.toNat_of_nonneg hb0
  have := nextLoop_iterate_climb mn mx st hst (c - a).toNat mn
    (by rw [hcast2]; linarith)
  rw [this, hcast2]; linarith

/-- Values appearing at position `w` of a loop-enabled run with no stop clicks:
the orbit stayed within bound up to `w` and the recorded value is the clamped
orbit value. -/
theorem runLoop_get_spec (mn mx st : ℤ) :
    ∀ (n : Nat) (i sel : ℤ) (k w : Nat) (v : ℤ),
      ((runLoop mn mx st noStop n i sel true k).log.map Prod.fst).get? w = some v →
      (∀ j : Nat, j ≤ w → (nextLoop mn mx st)^[j] i ≤ mx) ∧
      v = clampB mn mx ((nextLoop mn mx st)^[w] i) := by
  intro n
  induction n with
  | zero =>
      intro i sel k w v h
      rw [runLoop_zero_log] at h
      simp at h
  | succ n ih =>
      intro i sel k w v h
      by_cases hg : i ≤ mx
      · rw [runLoop_cons mn mx st noStop n i sel k hg] at h
        simp only [noStop, Bool.false_eq_true, ite_false, List.map_cons] at h
        cases w with
        | zero =>
            simp only [List.get?_cons_zero, Option.some.injEq] at h
            refine ⟨?_, by simp [h.symm]⟩
            intro j hj
            interval_cases j
            simpa using hg
        | succ w =>
            simp only [List.get?_cons_succ] at h
            obtain ⟨hj, hv⟩ := ih (nextLoop mn mx st i) (clampB mn mx i) (k + 1) w v h
            constructor
            · intro j hjle
              cases j with
              | zero => simpa using hg
              | succ j =>
                  rw [Function.iterate_succ_apply]
                  exact hj j (by omega)
            · rw [hv, Function.iterate_succ_apply]
      · rw [runLoop_stopGuard mn mx st noStop (n + 1) i sel k hg] at h
        simp at h

/-- When the whole orbit of the loop counter stays inside `[min, max]`, a
loop-enabled run with no stop clicks ticks forever: the trace of assigned
index values is exactly the orbit of `nextLoop`. -/
theorem runLoop_trace (mn mx st : ℤ) :
    ∀ (n : Nat) (i sel : ℤ) (k : Nat),
      (∀ j : Nat, mn ≤ (nextLoop mn mx st)^[j] i ∧ (nextLoop mn mx st)^[j] i ≤ mx) →
      ((runLoop mn mx st noStop n i sel true k).log).map Prod.fst =
        (List.range n).map (fun j => (nextLoop mn mx st)^[j] i) := by
  intro n
  induction n with
  | zero =>
      intro i sel k _
      rw [runLoop_zero_log]
      simp
  | succ n ih =>
      intro i sel k hIn
      have hg : i ≤ mx := by simpa using (hIn 0).2
      have hmni : mn ≤ i := by simpa using (hIn 0).1
      rw [runLoop_cons mn mx st noStop n i sel k hg]
      simp only [noStop, Bool.false_eq_true, ite_false, List.map_cons]
      rw [clampB_eq_self mn mx i hmni hg]
      rw [ih (nextLoop mn mx st i) i (k + 1)
        (fun j => by
          have := hIn (j + 1)
          rwa [Function.iterate_succ_apply] at this)]
      rw [List.range_succ_eq_map, List.map_cons, List.map_map]
      congr 1

theorem animate_loop_log (mn mx st sel : ℤ) (stop : Nat → Bool) (fuel : Nat) :
    (animate mn mx st sel true stop fuel).1 =
      (runLoop mn mx st stop fuel (nextLoop mn mx st sel) sel true 0).log := by
  simp [animate]

theorem animate_noLoop_log (mn mx st sel : ℤ) (stop : Nat → Bool) (fuel : Nat) :
    (animate mn mx st sel false stop fuel).1 =
      (runNoLoop mn mx st stop fuel (sel + st) sel true 0).log := by
  simp [animate]

/-- C2: for a valid range with loop enabled and `step ∣ max - min`, once the
running animation has wrapped (the trace reaches the value `min` at some
position `w`), the tick sequence is the full orbit of `nextLoop` and is
periodic from `w` on with period `(max - min) / step + 1`; and the concrete
scenario `{min 0, max 4, step 1, current 0}` with a stop click at the sixth
tick produces exactly the index sequence `1, 2, 3, 4, 0, 1` and then stops
with no further index changes, whatever extra time is allowed. -/
theorem C2_loop_periodic (mn mx st sel : ℤ) (hst : 0 < st) (hlo : mn ≤ sel)
    (hhi : sel ≤ mx) (hd : st ∣ mx - mn) :
    (∀ (n w : Nat),
        (((animate mn mx st sel true noStop n).1).map Prod.fst).get? w = some mn →
        (∀ nn : Nat, ((animate mn mx st sel true noStop nn).1).map Prod.fst =
            (List.range nn).map (vseqL mn mx st sel)) ∧
        (∀ kk : Nat, w ≤ kk →
            vseqL mn mx st sel (kk + periodL mn mx st) = vseqL mn mx st sel kk)) ∧
    (∀ m : Nat, animate 0 4 1 0 true stopAt5 (m + 6) =
        ([(1, 1), (2, 1), (3, 1), (4, 1), (0, 1), (1, 1)], false)) := by
  constructor
  · intro n w hw
    rw [animate_loop_log] at hw
    obtain ⟨hj, hv⟩ := runLoop_get_spec mn mx st n (nextLoop mn mx st sel) sel 0 w mn hw
    have hi0ge : mn ≤ nextLoop mn mx st sel := nextLoop_ge mn mx st sel hst.le hlo
    have horbge : ∀ j : Nat, mn ≤ (nextLoop mn mx st)^[j] (nextLoop mn mx st sel) :=
      nextLoop_iterate_ge mn mx st (nextLoop mn mx st sel) hst.le hi0ge
    have hworb : (nextLoop mn mx st)^[w] (nextLoop mn mx st sel) = mn := by
      have hcl := clampB_eq_self mn mx ((nextLoop mn mx st)^[w] (nextLoop mn mx st sel))
        (horbge w) (hj w le_rfl)
      rw [hcl] at hv
      exact hv.symm
    have hmnmx : mn ≤ mx := le_trans hlo hhi
    have hpost : ∀ t : Nat, mn ≤ (nextLoop mn mx st)^[t] mn ∧
        (nextLoop mn mx st)^[t] mn ≤ mx ∧ st ∣ mx - (nextLoop mn mx st)^[t] mn := by
      intro t
      induction t with
      | zero =>
          simp only [Function.iterate_zero_apply]
          exact ⟨le_rfl, hmnmx, hd⟩
      | succ t ih =>
          rw [Function.iterate_succ_apply']
          obtain ⟨ih1, ih2, ih3⟩ := ih
          by_cases hlt : (nextLoop mn mx st)^[t] mn < mx
          · obtain ⟨a, hA⟩ := ih3
            have ha1 : 1 ≤ a := by
              by_contra hcon
              push_neg at hcon
              have : a ≤ 0 := by omega
              nlinarith
            have hfx : nextLoop mn mx st ((nextLoop mn mx st)^[t] mn) =
                (nextLoop mn mx st)^[t] mn + st := by simp [nextLoop, hlt]
            rw [hfx]
            refine ⟨by omega, by nlinarith, ⟨a - 1, by rw [mul_sub]; omega⟩⟩
          · have hfx : nextLoop mn mx st ((nextLoop mn mx st)^[t] mn) = mn := by
              simp [nextLoop, hlt]
            rw [hfx]
            exact ⟨le_refl mn, hmnmx, hd⟩
    have hIn : ∀ j : Nat, mn ≤ (nextLoop mn mx st)^[j] (nextLoop mn mx st sel) ∧
        (nextLoop mn mx st)^[j] (nextLoop mn mx st sel) ≤ mx := by
      intro j
      rcases le_or_lt j w with h | h
      · exact ⟨horbge j, hj j h⟩
      · have hdecomp : j = (j - w) + w := by omega
        rw [hdecomp, Function.iterate_add_apply, hworb]
        exact ⟨(hpost (j - w)).1, (hpost (j - w)).2.1⟩
    constructor
    · intro nn
      rw [animate_loop_log, runLoop_trace mn mx st nn (nextLoop mn mx st sel) sel 0 hIn]
      refine List.map_congr_left (fun j _ => ?_)
      simp only [vseqL, Function.iterate_succ_apply]
    · intro kk hk
      have hw1 : (nextLoop mn mx st)^[w + 1] sel = mn := by
        rw [Function.iterate_succ_apply]
        exact hworb
      have h1 : kk + 1 = (kk - w) + (w + 1) := by omega
      have h2 : kk + periodL mn mx st + 1 =
          ((kk - w) + periodL mn mx st) + (w + 1) := by omega
      simp only [vseqL]
      have hL : (nextLoop mn mx st)^[kk + periodL mn mx st + 1] sel =
          (nextLoop mn mx st)^[kk - w] mn := by
        rw [h2, Function.iterate_add_apply, hw1, Function.iterate_add_apply,
          nextLoop_iterate_period mn mx st mn hst hd le_rfl hmnmx hd]
      have hR : (nextLoop mn mx st)^[kk + 1] sel =
          (nextLoop mn mx st)^[kk - w] mn := by
        rw [h1, Function.iterate_add_apply, hw1]
      rw [hL, hR]
  · intro m
    have h6 : runLoop 0 4 1 stopAt5 (m + 6) 1 0 true 0 =
        ⟨[(1, 1), (2, 1), (3, 1), (4, 1), (0, 1), (1, 1)], 2, false, true⟩ := by
      norm_num [show m + 6 = (m + 5) + 1 from rfl, show m + 5 = (m + 4) + 1 from rfl,
        show m + 4 = (m + 3) + 1 from rfl, show m + 3 = (m + 2) + 1 from rfl,
        show m + 2 = (m + 1) + 1 from rfl, runLoop, clampB, nextLoop, stopAt5,
        runLoop_not_playing]
    have hseed : nextLoop 0 4 1 0 = 1 := by norm_num [nextLoop]
    simp [animate, hseed, h6]

/-- Witness for C2 at the concrete range `{min 0, max 4, step 1, current 0}`:
the hypotheses hold, the wrap is observed at position 4 of the trace, and the
theorem applies. -/
theorem C2_witness :
    ((0 : ℤ) < 1) ∧
    ((((animate 0 4 1 0 true noStop 6).1).map Prod.fst).get? 4 = some 0) ∧
    ((animate 0 4 1 0 true noStop 12).1).map Prod.fst =
      (List.range 12).map (vseqL 0 4 1 0) :=
  ⟨by decide, by decide,
    ((C2_loop_periodic 0 4 1 0 (by decide) (by decide) (by decide) (by decide)).1
      6 4 (by decide)).1 12⟩

/-! ### C3: the advance rule of the running driver -/

theorem runLoop_chain (mn mx st : ℤ) (stop : Nat → Bool) (hst : 0 ≤ st) :
    ∀ (n : Nat) (i sel : ℤ) (p : Bool) (k : Nat), mn ≤ i →
      List.Chain' (fun a b => b = nextLoop mn mx st a)
        ((runLoop mn mx st stop n i sel p k).log.map Prod.fst) ∧
      (∀ v ∈ (runLoop mn mx st stop n i sel p k).log.map Prod.fst,
        mn ≤ v ∧ v ≤ mx) ∧
      (∀ v : ℤ, ((runLoop mn mx st stop n i sel p k).log.map Prod.fst).head? =
        some v → v = i) := by
  intro n
  induction n with
  | zero =>
      intro i sel p k _
      rw [runLoop_zero_log]
      simp
  | succ n ih =>
      intro i sel p k hmni
      cases p with
      | false =>
          rw [runLoop_not_playing]
          simp
      | true =>
          by_cases hg : i ≤ mx
          · rw [runLoop_cons mn mx st stop n i sel k hg,
              clampB_eq_self mn mx i hmni hg]
            obtain ⟨ihc, ihb, ihh⟩ := ih (nextLoop mn mx st i) i
              (if stop k then false else true) (k + 1)
              (nextLoop_ge mn mx st i hst hmni)
            simp only [List.map_cons]
            refine ⟨?_, ?_, ?_⟩
            · rw [List.chain'_cons']
              exact ⟨fun b hb => ihh b hb, ihc⟩
            · intro v hv
              rcases List.mem_cons.mp hv with h | h
              · exact h ▸ ⟨hmni, hg⟩
              · exact ihb v h
            · intro v hv
              simp only [List.head?_cons, Option.some.injEq] at hv
              exact hv.symm
          · rw [runLoop_stopGuard mn mx st stop (n + 1) i sel k hg]
            simp
  
theorem runNoLoop_zero_log (mn mx st : ℤ) (stop : Nat → Bool) (i sel : ℤ)
    (p : Bool) (k : Nat) : (runNoLoop mn mx st stop 0 i sel p k).log = [] := by
  simp only [runNoLoop]
  split <;> rfl

theorem runNoLoop_chain (mn mx st : ℤ) (stop : Nat → Bool) (hst : 0 ≤ st) :
    ∀ (n : Nat) (i sel : ℤ) (p : Bool) (k : Nat), mn ≤ i →
      List.Chain' (fun a b => b = a + st)
        ((runNoLoop mn mx st stop n i sel p k).log.map Prod.fst) ∧
      (∀ v ∈ (runNoLoop mn mx st stop n i sel p k).log.map Prod.fst,
        mn ≤ v ∧ v ≤ mx) ∧
      (∀ v : ℤ, ((runNoLoop mn mx st stop n i sel p k).log.map Prod.fst).head? =
        some v → v = i) := by
  intro n
  induction n with
  | zero =>
      intro i sel p k _
      rw [runNoLoop_zero_log]
      simp
  | succ n ih =>
      intro i sel p k hmni
      cases p with
      | false =>
          rw [runNoLoop_not_playing]
          simp
      | true =>
          by_cases hg : i ≤ mx
          · rw [runNoLoop_cons mn mx st stop n i sel k hg,
              clampB_eq_self mn mx i hmni hg]
            obtain ⟨ihc, ihb, ihh⟩ := ih (i + st) i
              (if stop k then false else true) (k + 1) (by omega)
            simp only [List.map_cons]
            refine ⟨?_, ?_, ?_⟩
            · rw [List.chain'_cons']
              exact ⟨fun b hb => ihh b hb, ihc⟩
            · intro v hv
              rcases List.mem_cons.mp hv with h | h
              · exact h ▸ ⟨hmni, hg⟩
              · exact ihb v h
            · intro v hv
              simp only [List.head?_cons, Option.some.injEq] at hv
              exact hv.symm
          · rw [runNoLoop_stopGuard mn mx st stop (n + 1) i sel k hg]
            simp

/-- C3 (amended): while running, consecutive values of the index sequence are
related by the actual counter update of the code: with loop enabled each tick
value is `nextLoop` of the previous one, i.e. the driver advances by `step`
when the value is strictly below `max` and wraps to `min` only when the value
equals `max` exactly (if the value is below `max` but the advance would
overshoot, the guard `i <= max` fails at the next iteration and the loop
halts without wrapping); with loop disabled each tick adds `step`; every
assigned value lies in `[min, max]`. -/
theorem C3_advance_rule (mn mx st sel : ℤ) (hst : 0 ≤ st) (hlo : mn ≤ sel)
    (stop : Nat → Bool) (fuel : Nat) :
    List.Chain' (fun a b => b = nextLoop mn mx st a)
      (sel :: (animate mn mx st sel true stop fuel).1.map Prod.fst) ∧
    List.Chain' (fun a b => b = a + st)
      (sel :: (animate mn mx st sel false stop fuel).1.map Prod.fst) ∧
    (∀ v ∈ (animate mn mx st sel true stop fuel).1.map Prod.fst,
      mn ≤ v ∧ v ≤ mx) ∧
    (∀ v ∈ (animate mn mx st sel false stop fuel).1.map Prod.fst,
      mn ≤ v ∧ v ≤ mx) := by
  rw [animate_loop_log, animate_noLoop_log]
  obtain ⟨hc1, hb1, hh1⟩ := runLoop_chain mn mx st stop hst fuel
    (nextLoop mn mx st sel) sel true 0 (nextLoop_ge mn mx st sel hst hlo)
  obtain ⟨hc2, hb2, hh2⟩ := runNoLoop_chain mn mx st stop hst fuel
    (sel + st) sel true 0 (by omega)
  refine ⟨?_, ?_, hb1, hb2⟩
  · rw [List.chain'_cons']
    exact ⟨fun b hb => hh1 b hb, hc1⟩
  · rw [List.chain'_cons']
    exact ⟨fun b hb => hh2 b hb, hc2⟩

/-- C3 counterexample: for the valid range `{min 0, max 5, step 2}` with the
current index 4 and loop enabled, advancing by `step` would exceed `max`
(4 + 2 > 5), so the claim says the driver wraps the index to `min`; instead
the code produces no tick at all (the index never changes, in particular it is
never set to `min`) and even leaves the play/stop flag raised. -/
theorem C3_counterexample :
    ((4 : ℤ) + 2 > 5) ∧
    (animate 0 5 2 4 true noStop 100).1 = [] ∧
    (animate 0 5 2 4 true noStop 100).2 = true := by decide

/-- Witness for the amended C3 at the concrete range `{min 0, max 5, step 2}`
with current index 1 and a run of 7 iterations. -/
theorem C3_witness :
    ((0 : ℤ) ≤ 2) ∧ ((0 : ℤ) ≤ 1) ∧
    List.Chain' (fun a b => b = nextLoop 0 5 2 a)
      (1 :: (animate 0 5 2 1 true noStop 7).1.map Prod.fst) :=
  ⟨by decide, by decide,
    (C3_advance_rule 0 5 2 1 (by decide) (by decide) noStop 7).1⟩

/-! ### C5: renders per tick -/

theorem runLoop_renders (mn mx st : ℤ) (stop : Nat → Bool) (hst : 0 < st)
    (hlt : mn < mx) :
    ∀ (n : Nat) (i sel : ℤ) (p : Bool) (k : Nat), mn ≤ i → i ≠ sel →
      ∀ q ∈ (runLoop mn mx st stop n i sel p k).log, q.2 = 1 := by
  intro n
  induction n with
  | zero =>
      intro i sel p k _ _ q hq
      rw [runLoop_zero_log] at hq
      simp at hq
  | succ n ih =>
      intro i sel p k hmni hne
      cases p with
      | false =>
          rw [runLoop_not_playing]
          simp
      | true =>
          by_cases hg : i ≤ mx
          · rw [runLoop_cons mn mx st stop n i sel k hg,
              clampB_eq_self mn mx i hmni hg]
            intro q hq
            rcases List.mem_cons.mp hq with h | h
            · rw [h]
              simp [hne]
            · refine ih (nextLoop mn mx st i) i (if stop k then false else true)
                (k + 1) (nextLoop_ge mn mx st i hst.le hmni) ?_ q h
              unfold nextLoop
              split <;> omega
          · rw [runLoop_stopGuard mn mx st stop (n + 1) i sel k hg]
            simp

/-- C5 (amended): for every valid range with `min < max` and loop enabled,
every tick of the running animation changes the index value and therefore
fires the registered render callback exactly once; the degenerate range
`min = max` is excluded, where ticks assign an unchanged value and fire no
render (see the counterexample). -/
theorem C5_render_once (mn mx st sel : ℤ) (hst : 0 < st) (hlt : mn < mx)
    (hlo : mn ≤ sel) (hhi : sel ≤ mx) (stop : Nat → Bool) (fuel : Nat) :
    ∀ q ∈ (animate mn mx st sel true stop fuel).1, q.2 = 1 := by
  rw [animate_loop_log]
  refine runLoop_renders mn mx st stop hst hlt fuel (nextLoop mn mx st sel) sel
    true 0 (nextLoop_ge mn mx st sel hst.le hlo) ?_
  unfold nextLoop
  split <;> omega

/-- C5 counterexample: in the degenerate valid range `{min 0, max 0, step 1}`
with loop enabled and current index 0, the first tick of the running
animation occurs (one loop iteration is logged) but assigns the unchanged
value 0, so zero render callbacks fire, not exactly one, and the index value
does not change. -/
theorem C5_counterexample :
    (animate 0 0 1 0 true noStop 1).1 = [((0 : ℤ), (0 : Nat))] := by decide

/-- Witness for the amended C5 at `{min 0, max 4, step 1}`, current 0. -/
theorem C5_witness :
    ((0 : ℤ) < 1) ∧ ((0 : ℤ) < 4) ∧
    (∀ q ∈ (animate 0 4 1 0 true noStop 7).1, q.2 = 1) :=
  ⟨by decide, by decide,
    C5_render_once 0 4 1 0 (by decide) (by decide) (by decide) (by decide)
      noStop 7⟩

/-! ### The index widgets: IndexButtonsWidget and AnimationOptionsWidget -/

theorem clampB_mem (lo hi v : ℤ) (h : lo ≤ hi) :
    lo ≤ clampB lo hi v ∧ clampB lo hi v ≤ hi :=
  ⟨le_max_left lo _, max_le h (min_le_left hi v)⟩

/-- State of `IndexButtonsWidget` (tools.py lines 724 to 813): the stored
bounds and step, the value of the `BoundedIntText` `index_text`, the
`selected_values` trait (synced to `index_text` by the `save_index`
observer), and the two flags. -/
structure IndexButtonsWidget where
  min : ℤ
  max : ℤ
  step : ℤ
  textValue : ℤ
  selected : ℤ
  loopEnabled : Bool
  textEditable : Bool
deriving DecidableEq

/-- `IndexButtonsWidget.__init__` (tools.py lines 759 to 813): `index_text`
is created with the dict values (`BoundedIntText` clamps the initial value
into `[min, max]`), while the `selected_values` trait is initialised with the
raw `index['index']` (line 778); no observer fires during construction. -/
def IndexButtonsWidget.init (d : IndexDict) (loopEnabled textEditable : Bool) :
    IndexButtonsWidget :=
  { min := d.min, max := d.max, step := d.step,
    textValue := clampB d.min d.max d.index,
    selected := d.index,
    loopEnabled := loopEnabled, textEditable := textEditable }

/-- Assignment to `index_text.value`: `BoundedIntText` clamps the value into
`[min, max]`; if the clamped value differs from the stored one the trait
changes and the `save_index` observer copies it into `selected_values`
(tools.py lines 811 to 813); otherwise nothing fires. -/
def IndexButtonsWidget.setIndexText (w : IndexButtonsWidget) (v : ℤ) :
    IndexButtonsWidget :=
  let u := clampB w.min w.max v
  if u = w.textValue then w else { w with textValue := u, selected := u }

/-- `value_plus` (tools.py lines 789 to 798). -/
def IndexButtonsWidget.value_plus (w : IndexButtonsWidget) : IndexButtonsWidget :=
  let tmp := w.textValue + w.step
  if tmp > w.max then
    if w.loopEnabled then w.setIndexText w.min else w.setIndexText w.max
  else
    w.setIndexText tmp

/-- `value_minus` (tools.py lines 800 to 809). -/
def IndexButtonsWidget.value_minus (w : IndexButtonsWidget) : IndexButtonsWidget :=
  let tmp := w.textValue - w.step
  if tmp < w.min then
    if w.loopEnabled then w.setIndexText w.max else w.setIndexText w.min
  else
    w.setIndexText tmp

/-- `IndexButtonsWidget.set_widget_state` (tools.py lines 898 to 947):
always updates the two flags; if any of the dict values differ from the
stored state it re-assigns `min`, `max`, `step` and sets
`index_text.value` to the dict index (clamped by `BoundedIntText`);
`selected_values` follows `index_text` whenever the net value changed
(the `save_index` observer is never removed, only render callbacks are). -/
def IndexButtonsWidget.set_widget_state (w : IndexButtonsWidget)
    (d : IndexDict) (loopEnabled textEditable : Bool) : IndexButtonsWidget :=
  let w1 : IndexButtonsWidget :=
    { w with loopEnabled := loopEnabled, textEditable := textEditable }
  if d.index ≠ w1.selected ∨ d.min ≠ w1.min ∨ d.max ≠ w1.max ∨
      d.step ≠ w1.step then
    let u := clampB d.min d.max d.index
    { w1 with
      min := d.min
      max := d.max
      step := d.step
      textValue := u
      selected := if u ≠ w1.textValue then u else w1.selected }
  else w1

/-- State of `AnimationOptionsWidget` (options.py lines 9 to 258) with
`index_style = buttons`: bounds, the `selected_values` trait, the embedded
index widget, `play_stop_toggle.value` (`playing`), the visual indicators of
the play/stop button (icon and button style), the play-options toggle and its
derived flags, and `loop_checkbox.value`. -/
structure AnimationOptionsWidget where
  min : ℤ
  max : ℤ
  step : ℤ
  selected : ℤ
  idx : IndexButtonsWidget
  playing : Bool
  stopIcon : Bool
  stopStyle : Bool
  optionsOpen : Bool
  optionsDisabled : Bool
  loopBoxVisible : Bool
  loopChecked : Bool
deriving DecidableEq

/-- `AnimationOptionsWidget.__init__` (options.py lines 113 to 258):
`selected_values` is initialised with the raw `index['index']` (line 164),
the toggle starts unpressed with the play icon. -/
def AnimationOptionsWidget.init (d : IndexDict) (loopEnabled : Bool) :
    AnimationOptionsWidget :=
  { min := d.min, max := d.max, step := d.step, selected := d.index,
    idx := IndexButtonsWidget.init d loopEnabled true,
    playing := false, stopIcon := false, stopStyle := false,
    optionsOpen := false, optionsDisabled := false, loopBoxVisible := false,
    loopChecked := loopEnabled }

/-- Effect of assigning `play_stop_toggle.value = False` (the stop operation):
traitlets fires the handlers only if the value actually was `True`, in which
case `play_stop_pressed` (options.py lines 179 to 195) restores the play icon
and style and re-enables the options toggle, and `animate` runs with value
`False`, which executes zero loop iterations and changes nothing (both its
`while` guards see a false toggle, and the trailing assignment of `False` to
an already false toggle fires no handler). -/
def AnimationOptionsWidget.stopToggle (s : AnimationOptionsWidget) :
    AnimationOptionsWidget :=
  if s.playing then
    { s with
      playing := false
      stopIcon := false
      stopStyle := false
      optionsDisabled := false }
  else s

/-- `AnimationOptionsWidget.set_widget_state` (options.py lines 403 to 443):
render callbacks are temporarily removed (no state effect), the toggle is
forced to `False` if pressed, the index widget is updated, the `save_value`
observer copies any change of the index widget selection into
`selected_values`, and then lines 433 to 436 store the raw `index['index']`
and the new bounds. -/
def AnimationOptionsWidget.set_widget_state (s : AnimationOptionsWidget)
    (d : IndexDict) : AnimationOptionsWidget :=
  let s1 := s.stopToggle
  let idx1 := s1.idx.set_widget_state d s1.loopChecked true
  let s2 : AnimationOptionsWidget :=
    { s1 with
      idx := idx1
      selected := if idx1.selected ≠ s1.idx.selected then idx1.selected
        else s1.selected }
  { s2 with
    selected := d.index
    min := d.min
    max := d.max
    step := d.step }

theorem stopToggle_playing (s : AnimationOptionsWidget) :
    s.stopToggle.playing = false := by
  unfold AnimationOptionsWidget.stopToggle
  split
  · rfl
  · rename_i h
    simpa using h

theorem stopToggle_idx (s : AnimationOptionsWidget) :
    s.stopToggle.idx = s.idx := by
  unfold AnimationOptionsWidget.stopToggle
  split <;> rfl

/-- The data-model invariant of the specification for the animation widget:
`min <= current <= max` and `step > 0` on the stored selected value. -/
def AnimationOptionsWidget.invariant (s : AnimationOptionsWidget) : Prop :=
  s.min ≤ s.selected ∧ s.selected ≤ s.max ∧ 0 < s.step

/-- The same invariant on the index-buttons widget, for both the displayed
text value and the selected value. -/
def IndexButtonsWidget.invariant (w : IndexButtonsWidget) : Prop :=
  (w.min ≤ w.textValue ∧ w.textValue ≤ w.max) ∧
  (w.min ≤ w.selected ∧ w.selected ≤ w.max) ∧ 0 < w.step

/-- A well-formed options dictionary. -/
def IndexDict.valid (d : IndexDict) : Prop :=
  d.min ≤ d.index ∧ d.index ≤ d.max ∧ 0 < d.step

theorem setIndexText_invariant (w : IndexButtonsWidget) (hw : w.invariant)
    (v : ℤ) : (w.setIndexText v).invariant := by
  unfold IndexButtonsWidget.setIndexText
  dsimp only
  split
  · exact hw
  · obtain ⟨⟨a, b⟩, ⟨c, d⟩, e⟩ := hw
    have hle : w.min ≤ w.max := le_trans a b
    exact ⟨⟨(clampB_mem _ _ _ hle).1, (clampB_mem _ _ _ hle).2⟩,
      ⟨(clampB_mem _ _ _ hle).1, (clampB_mem _ _ _ hle).2⟩, e⟩

theorem setIndexText_inrange (w : IndexButtonsWidget) (v : ℤ)
    (hsync : w.selected = w.textValue) (hv1 : w.min ≤ v) (hv2 : v ≤ w.max) :
    (w.setIndexText v).textValue = v ∧ (w.setIndexText v).selected = v := by
  unfold IndexButtonsWidget.setIndexText
  dsimp only
  rw [clampB_eq_self w.min w.max v hv1 hv2]
  split
  · rename_i h
    exact ⟨h.symm, hsync.trans h.symm⟩
  · exact ⟨rfl, rfl⟩

/-! ### C7: stop is idempotent and safe -/

/-- C7: the stop operation is a total function of the widget state (safe in
every state), and when the driver is already Idle (`playing = false`) it
leaves the entire widget state unchanged, including the index, the bounds and
the visual indicators; applying stop twice equals applying it once. -/
theorem C7_stop_idempotent :
    ∀ s : AnimationOptionsWidget,
      (s.playing = false → s.stopToggle = s) ∧
      s.stopToggle.stopToggle = s.stopToggle := by
  have hid : ∀ p : AnimationOptionsWidget, p.playing = false → p.stopToggle = p := by
    intro p hp
    unfold AnimationOptionsWidget.stopToggle
    simp [hp]
  intro s
  exact ⟨hid s, hid s.stopToggle (stopToggle_playing s)⟩

/-- Witness for C7: stopping a freshly constructed (idle) widget changes
nothing. -/
theorem C7_witness :
    (AnimationOptionsWidget.init ⟨0, 100, 1, 10⟩ true).stopToggle =
      AnimationOptionsWidget.init ⟨0, 100, 1, 10⟩ true :=
  (C7_stop_idempotent (AnimationOptionsWidget.init ⟨0, 100, 1, 10⟩ true)).1 rfl

/-! ### C4: set_widget_state -/

theorem idx_set_widget_state_fields (w : IndexButtonsWidget) (d : IndexDict)
    (le te : Bool) (h1 : w.selected = w.textValue) (h2 : w.min ≤ w.textValue)
    (h3 : w.textValue ≤ w.max) :
    (w.set_widget_state d le te).min = d.min ∧
    (w.set_widget_state d le te).max = d.max ∧
    (w.set_widget_state d le te).step = d.step ∧
    (w.set_widget_state d le te).textValue = clampB d.min d.max d.index := by
  unfold IndexButtonsWidget.set_widget_state
  dsimp only
  split
  · exact ⟨rfl, rfl, rfl, rfl⟩
  · rename_i h
    push_neg at h
    obtain ⟨e1, e2, e3, e4⟩ := h
    refine ⟨e2.symm, e3.symm, e4.symm, ?_⟩
    rw [e1, e2, e3, h1, clampB_eq_self _ _ _ h2 h3]

/-- C4 (amended): for every widget state whose index widget is in its normal
synced, in-bounds condition and every new options dict, `set_widget_state`
resets the play/stop flag to `false`, installs the new bounds, never fails,
and clamps the displayed `index_text` value into the new `[min, max]` -- but
the stored `selected_values` receives the raw supplied index (options.py line
433), without coercion. -/
theorem C4_set_widget_state_behaviour (s : AnimationOptionsWidget)
    (d : IndexDict) (h1 : s.idx.selected = s.idx.textValue)
    (h2 : s.idx.min ≤ s.idx.textValue) (h3 : s.idx.textValue ≤ s.idx.max) :
    (s.set_widget_state d).playing = false ∧
    (s.set_widget_state d).min = d.min ∧
    (s.set_widget_state d).max = d.max ∧
    (s.set_widget_state d).step = d.step ∧
    (s.set_widget_state d).selected = d.index ∧
    (s.set_widget_state d).idx.min = d.min ∧
    (s.set_widget_state d).idx.max = d.max ∧
    (s.set_widget_state d).idx.textValue = clampB d.min d.max d.index := by
  have hidx : (s.set_widget_state d).idx =
      s.idx.set_widget_state d s.stopToggle.loopChecked true := by
    unfold AnimationOptionsWidget.set_widget_state
    dsimp only
    rw [stopToggle_idx]
  obtain ⟨f1, f2, f3, f4⟩ :=
    idx_set_widget_state_fields s.idx d s.stopToggle.loopChecked true h1 h2 h3
  refine ⟨?_, rfl, rfl, rfl, rfl, ?_, ?_, ?_⟩
  · exact stopToggle_playing s
  · rw [hidx]; exact f1
  · rw [hidx]; exact f2
  · rw [hidx]; exact f4

/-- C4 counterexample: updating a widget over the range `[0, 10]` with the
dict `{min 0, max 10, step 1, index 15}` does not coerce the stored selected
index into `[min, max]`: the stored `selected_values` ends up 15, strictly
above `max` (only the displayed `index_text` is clamped, to 10). -/
theorem C4_counterexample :
    ((AnimationOptionsWidget.init ⟨0, 10, 1, 5⟩ true).set_widget_state
        ⟨0, 10, 1, 15⟩).selected = 15 ∧
    ¬ (((AnimationOptionsWidget.init ⟨0, 10, 1, 5⟩ true).set_widget_state
        ⟨0, 10, 1, 15⟩).selected ≤
      ((AnimationOptionsWidget.init ⟨0, 10, 1, 5⟩ true).set_widget_state
        ⟨0, 10, 1, 15⟩).max) ∧
    ((AnimationOptionsWidget.init ⟨0, 10, 1, 5⟩ true).set_widget_state
        ⟨0, 10, 1, 15⟩).idx.textValue = 10 := by decide

/-- Witness for the amended C4 at a concrete state and dict. -/
theorem C4_witness :
    ((AnimationOptionsWidget.init ⟨0, 10, 1, 5⟩ true).set_widget_state
        ⟨2, 8, 1, 99⟩).playing = false ∧
    ((AnimationOptionsWidget.init ⟨0, 10, 1, 5⟩ true).set_widget_state
        ⟨2, 8, 1, 99⟩).idx.textValue = clampB 2 8 99 :=
  ⟨(C4_set_widget_state_behaviour (AnimationOptionsWidget.init ⟨0, 10, 1, 5⟩ true)
      ⟨2, 8, 1, 99⟩ (by decide) (by decide) (by decide)).1,
    (C4_set_widget_state_behaviour (AnimationOptionsWidget.init ⟨0, 10, 1, 5⟩ true)
      ⟨2, 8, 1, 99⟩ (by decide) (by decide) (by decide)).2.2.2.2.2.2.2⟩

/-! ### C6: the range invariant -/

/-- C6 (amended): provided every supplied options dictionary is valid
(`min <= index <= max`, `step > 0`), the invariant `min <= current <= max`
with `step > 0` holds after construction, is preserved by every plus/minus
button press, every value assigned by a tick of the running animation lies in
`[min, max]`, and the invariant holds after every `set_widget_state` call.
(For an invalid dictionary `set_widget_state` stores the raw out-of-range
index, see the counterexample.) -/
theorem C6_range_invariant :
    (∀ (d : IndexDict) (le : Bool), d.valid →
      (AnimationOptionsWidget.init d le).invariant ∧
      (AnimationOptionsWidget.init d le).idx.invariant) ∧
    (∀ w : IndexButtonsWidget, w.invariant →
      w.value_plus.invariant ∧ w.value_minus.invariant) ∧
    (∀ (mn mx st sel : ℤ) (lp : Bool) (stop : Nat → Bool) (fuel : Nat),
      0 ≤ st → mn ≤ sel →
      ∀ v ∈ (animate mn mx st sel lp stop fuel).1.map Prod.fst,
        mn ≤ v ∧ v ≤ mx) ∧
    (∀ (s : AnimationOptionsWidget) (d : IndexDict), d.valid →
      (s.set_widget_state d).invariant) := by
  refine ⟨?_, ?_, ?_, ?_⟩
  · intro d le hv
    obtain ⟨h1, h2, h3⟩ := hv
    have hle : d.min ≤ d.max := le_trans h1 h2
    exact ⟨⟨h1, h2, h3⟩,
      ⟨⟨(clampB_mem _ _ _ hle).1, (clampB_mem _ _ _ hle).2⟩, ⟨h1, h2⟩, h3⟩⟩
  · intro w hw
    constructor
    · unfold IndexButtonsWidget.value_plus
      dsimp only
      split
      · split <;> exact setIndexText_invariant w hw _
      · exact setIndexText_invariant w hw _
    · unfold IndexButtonsWidget.value_minus
      dsimp only
      split
      · split <;> exact setIndexText_invariant w hw _
      · exact setIndexText_invariant w hw _
  · intro mn mx st sel lp stop fuel hst hlo
    cases lp with
    | true =>
        rw [animate_loop_log]
        exact (runLoop_chain mn mx st stop hst fuel (nextLoop mn mx st sel) sel
          true 0 (nextLoop_ge mn mx st sel hst hlo)).2.1
    | false =>
        rw [animate_noLoop_log]
        exact (runNoLoop_chain mn mx st stop hst fuel (sel + st) sel
          true 0 (by omega)).2.1
  · intro s d hv
    exact ⟨hv.1, hv.2.1, hv.2.2⟩

/-- C6 counterexample: after a `set_widget_state` call with an out-of-range
index (`{min 0, max 5, step 1, index 7}`), the stored selected index is 7,
strictly above the stored `max` of 5: the invariant does not hold after that
operation. -/
theorem C6_counterexample :
    ((AnimationOptionsWidget.init ⟨0, 5, 1, 2⟩ true).set_widget_state
        ⟨0, 5, 1, 7⟩).selected = 7 ∧
    ((AnimationOptionsWidget.init ⟨0, 5, 1, 2⟩ true).set_widget_state
        ⟨0, 5, 1, 7⟩).max = 5 ∧
    ¬ (((AnimationOptionsWidget.init ⟨0, 5, 1, 2⟩ true).set_widget_state
        ⟨0, 5, 1, 7⟩).selected ≤
      ((AnimationOptionsWidget.init ⟨0, 5, 1, 2⟩ true).set_widget_state
        ⟨0, 5, 1, 7⟩).max) := by decide

/-- Witness for the amended C6 at concrete valid inputs. -/
theorem C6_witness :
    (AnimationOptionsWidget.init ⟨0, 9, 2, 4⟩ false).invariant ∧
    ((AnimationOptionsWidget.init ⟨0, 9, 2, 4⟩ false).set_widget_state
      ⟨1, 6, 1, 3⟩).invariant :=
  ⟨(C6_range_invariant.1 ⟨0, 9, 2, 4⟩ false
      ⟨by decide, by decide, by decide⟩).1,
    C6_range_invariant.2.2.2 (AnimationOptionsWidget.init ⟨0, 9, 2, 4⟩ false)
      ⟨1, 6, 1, 3⟩ ⟨by decide, by decide, by decide⟩⟩

/-! ### C10: plus/minus clamp or wrap at the bounds -/

/-- C10: for an index-buttons widget in its normal synced, in-bounds state,
pressing plus when `index + step > max` wraps the index (text and selected
value) to exactly `min` when loop is enabled, and clamps it to exactly `max`
when loop is disabled; symmetrically, pressing minus when
`index - step < min` wraps to `max` (loop) or clamps to `min` (no loop). -/
theorem C10_buttons_clamp (w : IndexButtonsWidget)
    (hsync : w.selected = w.textValue) (hlo : w.min ≤ w.textValue)
    (hhi : w.textValue ≤ w.max) :
    (w.max < w.textValue + w.step →
      (w.loopEnabled = true →
        w.value_plus.textValue = w.min ∧ w.value_plus.selected = w.min) ∧
      (w.loopEnabled = false →
        w.value_plus.textValue = w.max ∧ w.value_plus.selected = w.max)) ∧
    (w.textValue - w.step < w.min →
      (w.loopEnabled = true →
        w.value_minus.textValue = w.max ∧ w.value_minus.selected = w.max) ∧
      (w.loopEnabled = false →
        w.value_minus.textValue = w.min ∧ w.value_minus.selected = w.min)) := by
  have hminmax : w.min ≤ w.max := le_trans hlo hhi
  constructor
  · intro hover
    unfold IndexButtonsWidget.value_plus
    dsimp only
    rw [if_pos hover]
    constructor
    · intro hl
      rw [hl]
      simp only [if_true]
      exact setIndexText_inrange w w.min hsync le_rfl hminmax
    · intro hl
      rw [hl]
      simp only [Bool.false_eq_true, if_false]
      exact setIndexText_inrange w w.max hsync hminmax le_rfl
  · intro hunder
    unfold IndexButtonsWidget.value_minus
    dsimp only
    rw [if_pos hunder]
    constructor
    · intro hl
      rw [hl]
      simp only [if_true]
      exact setIndexText_inrange w w.max hsync hminmax le_rfl
    · intro hl
      rw [hl]
      simp only [Bool.false_eq_true, if_false]
      exact setIndexText_inrange w w.min hsync le_rfl hminmax

/-- Witness for C10: a widget over `[0, 10]` with step 3 at index 9, loop
enabled; plus wraps to 0. -/
theorem C10_witness :
    ((10 : ℤ) < 9 + 3) ∧
    (IndexButtonsWidget.init ⟨0, 10, 3, 9⟩ true true).value_plus.textValue = 0 ∧
    (IndexButtonsWidget.init ⟨0, 10, 3, 9⟩ true true).value_plus.selected = 0 :=
  ⟨by decide,
    ((C10_buttons_clamp (IndexButtonsWidget.init ⟨0, 10, 3, 9⟩ true true)
      (by decide) (by decide) (by decide)).1 (by decide)).1 rfl⟩

/-! ### C8: exceptions raised by the render callback -/

/-- The `while` loop body of `animate` with a fallible render callback.
Python has no handler anywhere in `animate` (options.py lines 202 to 253), so
an exception raised by the callback aborts the assignment statement (after
the trait value has already been stored) and propagates out of the loop and
out of `animate`; this is the `Except`-style short circuit below.  The two
branches of `animate` share this loop body verbatim and differ only in the
counter update, passed here as `next`.  The callback fires only when the tick
actually changes the value (one render, `r = 1`).  Returns the per-tick log
together with `some e` if callback exception `e` escaped, else `none`. -/
def runExc (mn mx : ℤ) (next : ℤ → ℤ) (cb : ℤ → Except Nat Unit)
    (stop : Nat → Bool) : Nat → ℤ → ℤ → Bool → Nat → List (ℤ × Nat) × Option Nat
  | 0, _i, _sel, _p, _k => ([], none)
  | fuel + 1, i, sel, p, k =>
      if i ≤ mx ∧ p = true then
        let v := clampB mn mx i
        let r : Nat := if v = sel then 0 else 1
        match (if r = 1 then cb v else Except.ok ()) with
        | Except.error e => ([(v, r)], some e)
        | Except.ok _ =>
            let q : Bool := if stop k then false else p
            let rest := runExc mn mx next cb stop fuel (next i) v q (k + 1)
            ((v, r) :: rest.1, rest.2)
      else ([], none)

/-- `animate` with a fallible render callback: same seeding as `animate`;
when the callback raises, the exception propagates out (in the loop-disabled
branch the trailing toggle reset on line 252 is also skipped). -/
def animateExc (mn mx st sel : ℤ) (loop : Bool) (cb : ℤ → Except Nat Unit)
    (stop : Nat → Bool) (fuel : Nat) : List (ℤ × Nat) × Option Nat :=
  if loop then
    runExc mn mx (nextLoop mn mx st) cb stop fuel (nextLoop mn mx st sel) sel true 0
  else
    runExc mn mx (fun i => i + st) cb stop fuel (sel + st) sel true 0

theorem runExc_not_playing (mn mx : ℤ) (next : ℤ → ℤ)
    (cb : ℤ → Except Nat Unit) (stop : Nat → Bool) (fuel : Nat) (i sel : ℤ)
    (k : Nat) : runExc mn mx next cb stop fuel i sel false k = ([], none) := by
  cases fuel <;> simp [runExc]

theorem runExc_stopGuard (mn mx : ℤ) (next : ℤ → ℤ)
    (cb : ℤ → Except Nat Unit) (stop : Nat → Bool) (fuel : Nat) (i sel : ℤ)
    (k : Nat) (hg : ¬ (i ≤ mx)) :
    runExc mn mx next cb stop fuel i sel true k = ([], none) := by
  cases fuel <;> simp [runExc, hg]

theorem runExc_cons_ok (mn mx : ℤ) (next : ℤ → ℤ) (cb : ℤ → Except Nat Unit)
    (stop : Nat → Bool) (fuel : Nat) (i sel : ℤ) (k : Nat) (hg : i ≤ mx)
    (hcb : cb (clampB mn mx i) = Except.ok ()) :
    runExc mn mx next cb stop (fuel + 1) i sel true k =
      ((clampB mn mx i, if clampB mn mx i = sel then 0 else 1) ::
          (runExc mn mx next cb stop fuel (next i) (clampB mn mx i)
            (if stop k then false else true) (k + 1)).1,
        (runExc mn mx next cb stop fuel (next i) (clampB mn mx i)
          (if stop k then false else true) (k + 1)).2) := by
  simp [runExc, hg, hcb, ite_self]

theorem runExc_cons_err (mn mx : ℤ) (next : ℤ → ℤ) (cb : ℤ → Except Nat Unit)
    (stop : Nat → Bool) (fuel : Nat) (i sel : ℤ) (k : Nat) (e : Nat)
    (hg : i ≤ mx) (hne : clampB mn mx i ≠ sel)
    (hcb : cb (clampB mn mx i) = Except.error e) :
    runExc mn mx next cb stop (fuel + 1) i sel true k =
      ([(clampB mn mx i, 1)], some e) := by
  simp [runExc, hg, hne, hcb]

theorem runExc_cons_skip (mn mx : ℤ) (next : ℤ → ℤ) (cb : ℤ → Except Nat Unit)
    (stop : Nat → Bool) (fuel : Nat) (i sel : ℤ) (k : Nat) (hg : i ≤ mx)
    (hsel : clampB mn mx i = sel) :
    runExc mn mx next cb stop (fuel + 1) i sel true k =
      ((clampB mn mx i, 0) ::
          (runExc mn mx next cb stop fuel (next i) (clampB mn mx i)
            (if stop k then false else true) (k + 1)).1,
        (runExc mn mx next cb stop fuel (next i) (clampB mn mx i)
          (if stop k then false else true) (k + 1)).2) := by
  simp [runExc, hg, hsel]

/-- When the render callback never raises, the fallible loop body produces
exactly the log of the plain loop-enabled runner and no exception. -/
theorem runExc_ok_loop (mn mx st : ℤ) (cb : ℤ → Except Nat Unit)
    (stop : Nat → Bool) (hok : ∀ v, cb v = Except.ok ()) :
    ∀ (n : Nat) (i sel : ℤ) (p : Bool) (k : Nat),
      runExc mn mx (nextLoop mn mx st) cb stop n i sel p k =
        ((runLoop mn mx st stop n i sel p k).log, none) := by
  intro n
  induction n with
  | zero =>
      intro i sel p k
      rw [runLoop_zero_log]
      rfl
  | succ n ih =>
      intro i sel p k
      cases p with
      | false =>
          rw [runExc_not_playing, runLoop_not_playing]
      | true =>
          by_cases hg : i ≤ mx
          · rw [runExc_cons_ok mn mx (nextLoop mn mx st) cb stop n i sel k hg
              (hok _), runLoop_cons mn mx st stop n i sel k hg, ih]
          · rw [runExc_stopGuard mn mx (nextLoop mn mx st) cb stop (n + 1) i sel
              k hg, runLoop_stopGuard mn mx st stop (n + 1) i sel k hg]

/-- Same for the loop-disabled runner. -/
theorem runExc_ok_noLoop (mn mx st : ℤ) (cb : ℤ → Except Nat Unit)
    (stop : Nat → Bool) (hok : ∀ v, cb v = Except.ok ()) :
    ∀ (n : Nat) (i sel : ℤ) (p : Bool) (k : Nat),
      runExc mn mx (fun j => j + st) cb stop n i sel p k =
        ((runNoLoop mn mx st stop n i sel p k).log, none) := by
  intro n
  induction n with
  | zero =>
      intro i sel p k
      rw [runNoLoop_zero_log]
      rfl
  | succ n ih =>
      intro i sel p k
      cases p with
      | false =>
          rw [runExc_not_playing, runNoLoop_not_playing]
      | true =>
          by_cases hg : i ≤ mx
          · rw [runExc_cons_ok mn mx (fun j => j + st) cb stop n i sel k hg
              (hok _), runNoLoop_cons mn mx st stop n i sel k hg, ih]
          · rw [runExc_stopGuard mn mx (fun j => j + st) cb stop (n + 1) i sel
              k hg, runNoLoop_stopGuard mn mx st stop (n + 1) i sel k hg]

/-- If an exception escaped, the log is a prefix of successful renders
followed by the single tick whose render raised; the loop performed no
further iterations. -/
theorem runExc_abort (mn mx : ℤ) (next : ℤ → ℤ) (cb : ℤ → Except Nat Unit)
    (stop : Nat → Bool) :
    ∀ (n : Nat) (i sel : ℤ) (p : Bool) (k : Nat) (e : Nat),
      (runExc mn mx next cb stop n i sel p k).2 = some e →
      ∃ ts v, (runExc mn mx next cb stop n i sel p k).1 = ts ++ [(v, 1)] ∧
        cb v = Except.error e ∧
        ∀ q ∈ ts, q.2 = 1 → cb q.1 = Except.ok () := by
  intro n
  induction n with
  | zero =>
      intro i sel p k e h
      simp [runExc] at h
  | succ n ih =>
      intro i sel p k e h
      cases p with
      | false =>
          rw [runExc_not_playing] at h ⊢
          simp at h
      | true =>
          by_cases hg : i ≤ mx
          · cases hcv : cb (clampB mn mx i) with
            | ok u =>
                cases u
                rw [runExc_cons_ok mn mx next cb stop n i sel k hg hcv] at h ⊢
                obtain ⟨ts, v1, h1, h2, h3⟩ := ih (next i) (clampB mn mx i)
                  (if stop k then false else true) (k + 1) e h
                refine ⟨(clampB mn mx i, if clampB mn mx i = sel then 0 else 1)
                  :: ts, v1, ?_, h2, ?_⟩
                · rw [List.cons_append, h1]
                · intro q hq
                  rcases List.mem_cons.mp hq with hq1 | hq2
                  · intro hr1
                    rw [hq1]
                    exact hcv
                  · exact h3 q hq2
            | error e0 =>
                by_cases hsel : clampB mn mx i = sel
                · rw [runExc_cons_skip mn mx next cb stop n i sel k hg hsel]
                    at h ⊢
                  obtain ⟨ts, v1, h1, h2, h3⟩ := ih (next i) (clampB mn mx i)
                    (if stop k then false else true) (k + 1) e h
                  refine ⟨(clampB mn mx i, 0) :: ts, v1, ?_, h2, ?_⟩
                  · rw [List.cons_append, h1]
                  · intro q hq
                    rcases List.mem_cons.mp hq with hq1 | hq2
                    · intro hr1
                      rw [hq1] at hr1
                      simp at hr1
                    · exact h3 q hq2
                · rw [runExc_cons_err mn mx next cb stop n i sel k e0 hg hsel
                    hcv] at h ⊢
                  simp only [Option.some.injEq] at h
                  refine ⟨[], clampB mn mx i, by simp, ?_, by simp⟩
                  rw [← h]
                  exact hcv
          · rw [runExc_stopGuard mn mx next cb stop (n + 1) i sel k hg] at h
            simp at h

/-- Once an exception escaped, allowing any amount of additional fuel makes
no difference: the animation has terminated and no further index updates
occur. -/
theorem runExc_stable (mn mx : ℤ) (next : ℤ → ℤ) (cb : ℤ → Except Nat Unit)
    (stop : Nat → Bool) :
    ∀ (n : Nat) (i sel : ℤ) (p : Bool) (k : Nat) (e : Nat),
      (runExc mn mx next cb stop n i sel p k).2 = some e →
      ∀ m : Nat, runExc mn mx next cb stop (n + m) i sel p k =
        runExc mn mx next cb stop n i sel p k := by
  intro n
  induction n with
  | zero =>
      intro i sel p k e h
      simp [runExc] at h
  | succ n ih =>
      intro i sel p k e h m
      cases p with
      | false =>
          rw [runExc_not_playing, runExc_not_playing]
      | true =>
          by_cases hg : i ≤ mx
          · cases hcv : cb (clampB mn mx i) with
            | ok u =>
                cases u
                rw [runExc_cons_ok mn mx next cb stop n i sel k hg hcv] at h
                rw [Nat.add_right_comm n 1 m,
                  runExc_cons_ok mn mx next cb stop (n + m) i sel k hg hcv,
                  runExc_cons_ok mn mx next cb stop n i sel k hg hcv,
                  ih (next i) (clampB mn mx i) (if stop k then false else true)
                    (k + 1) e h m]
            | error e0 =>
                by_cases hsel : clampB mn mx i = sel
                · rw [runExc_cons_skip mn mx next cb stop n i sel k hg hsel] at h
                  rw [Nat.add_right_comm n 1 m,
                    runExc_cons_skip mn mx next cb stop (n + m) i sel k hg hsel,
                    runExc_cons_skip mn mx next cb stop n i sel k hg hsel,
                    ih (next i) (clampB mn mx i) (if stop k then false else true)
                      (k + 1) e h m]
                · rw [Nat.add_right_comm n 1 m,
                    runExc_cons_err mn mx next cb stop (n + m) i sel k e0 hg
                      hsel hcv,
                    runExc_cons_err mn mx next cb stop n i sel k e0 hg hsel hcv]
          · rw [runExc_stopGuard mn mx next cb stop (n + 1 + m) i sel k hg,
              runExc_stopGuard mn mx next cb stop (n + 1) i sel k hg]

/-- C8: the animation loop contains no exception handler.  If the render
callback never raises, the fallible semantics coincides with the plain
animation and no exception escapes.  If an exception does escape, then (a)
the logged index updates are a prefix of cb-successful renders followed by
the single tick whose render raised -- the current tick is the last one and
the animation terminated with the exception propagating to the caller of the
driver -- and (b) no amount of additional running time produces any further
index update: the caller must restart the animation. -/
theorem C8_callback_exception (mn mx st sel : ℤ) (loop : Bool)
    (cb : ℤ → Except Nat Unit) (stop : Nat → Bool) (fuel : Nat) :
    ((∀ v, cb v = Except.ok ()) →
      animateExc mn mx st sel loop cb stop fuel =
        ((animate mn mx st sel loop stop fuel).1, none)) ∧
    (∀ e : Nat, (animateExc mn mx st sel loop cb stop fuel).2 = some e →
      (∃ ts v, (animateExc mn mx st sel loop cb stop fuel).1 = ts ++ [(v, 1)] ∧
        cb v = Except.error e ∧
        ∀ q ∈ ts, q.2 = 1 → cb q.1 = Except.ok ()) ∧
      ∀ m : Nat, animateExc mn mx st sel loop cb stop (fuel + m) =
        animateExc mn mx st sel loop cb stop fuel) := by
  cases loop with
  | true =>
      constructor
      · intro hok
        rw [animate_loop_log]
        simp only [animateExc, if_true]
        exact runExc_ok_loop mn mx st cb stop hok fuel (nextLoop mn mx st sel)
          sel true 0
      · intro e he
        simp only [animateExc, if_true] at he ⊢
        exact ⟨runExc_abort mn mx (nextLoop mn mx st) cb stop fuel
            (nextLoop mn mx st sel) sel true 0 e he,
          fun m => runExc_stable mn mx (nextLoop mn mx st) cb stop fuel
            (nextLoop mn mx st sel) sel true 0 e he m⟩
  | false =>
      constructor
      · intro hok
        rw [animate_noLoop_log]
        simp only [animateExc, Bool.false_eq_true, if_false]
        exact runExc_ok_noLoop mn mx st cb stop hok fuel (sel + st) sel true 0
      · intro e he
        simp only [animateExc, Bool.false_eq_true, if_false] at he ⊢
        exact ⟨runExc_abort mn mx (fun j => j + st) cb stop fuel (sel + st) sel
            true 0 e he,
          fun m => runExc_stable mn mx (fun j => j + st) cb stop fuel (sel + st)
            sel true 0 e he m⟩

/-- Witness for C8: with a callback that raises 7 on index value 2, the run
over `{min 0, max 4, step 1}` from 0 aborts at the tick that set 2; with an
always-ok callback the fallible run coincides with the plain one. -/
theorem C8_witness :
    (animateExc 0 4 1 0 true (fun _ => Except.ok ()) noStop 3 =
      ((animate 0 4 1 0 true noStop 3).1, none)) ∧
    ((animateExc 0 4 1 0 true
        (fun v => if v = 2 then Except.error 7 else Except.ok ()) noStop 9).2 =
      some 7) ∧
    (∃ ts v,
      (animateExc 0 4 1 0 true
          (fun v => if v = 2 then Except.error 7 else Except.ok ()) noStop 9).1 =
        ts ++ [(v, 1)] ∧
      (fun v => if v = 2 then Except.error 7 else Except.ok ()) v =
        Except.error 7 ∧
      ∀ q ∈ ts, q.2 = 1 →
        (fun v => if v = 2 then Except.error 7 else Except.ok ()) q.1 =
          Except.ok ()) :=
  ⟨(C8_callback_exception 0 4 1 0 true (fun _ => Except.ok ()) noStop 3).1
      (fun _ => rfl),
    by decide,
    ((C8_callback_exception 0 4 1 0 true
        (fun v => if v = 2 then Except.error 7 else Except.ok ()) noStop 9).2 7
      (by decide)).1⟩

/-! ### C9: the module-level logo cache -/

/-- The five accepted `style` values of `LogoWidget` (tools.py line 41). -/
inductive LogoStyle
  | minimal
  | danger
  | info
  | warning
  | success
deriving DecidableEq

/-- The module-level globals of tools.py lines 16 to 22.  A cached logo image
is fully determined by its style and the scale it was rescaled at, so each
`MENPO_X_LOGO` global is represented by the scale of the image it holds
(`none` = not yet loaded); `MENPO_LOGO_SCALE` is a single `Option` shared by
all five styles. -/
structure LogoCache where
  minimalLogo : Option ℚ
  dangerLogo : Option ℚ
  infoLogo : Option ℚ
  warningLogo : Option ℚ
  successLogo : Option ℚ
  logoScale : Option ℚ
deriving DecidableEq

/-- The globals before any `LogoWidget` has been constructed. -/
def emptyLogoCache : LogoCache := ⟨none, none, none, none, none, none⟩

/-- `LogoWidget.__init__` (tools.py lines 41 to 95).  Each branch tests
`MENPO_X_LOGO is None or scale != MENPO_LOGO_SCALE` (in Python,
`scale != None` is true, and the float comparison is plain equality, modelled
on `ℚ`); on recompute it stores the freshly rescaled image and (except in the
`success` branch, lines 83 to 90, which omits the assignment) records the
scale in the shared `MENPO_LOGO_SCALE`.  Returns the image put into the
widget (represented by the scale it was rescaled at) and the new globals. -/
def logoWidgetInit (style : LogoStyle) (scale : ℚ) (c : LogoCache) :
    ℚ × LogoCache :=
  match style with
  | LogoStyle.minimal =>
      match c.minimalLogo with
      | none => (scale, { c with minimalLogo := some scale, logoScale := some scale })
      | some s =>
          if c.logoScale ≠ some scale then
            (scale, { c with minimalLogo := some scale, logoScale := some scale })
          else (s, c)
  | LogoStyle.danger =>
      match c.dangerLogo with
      | none => (scale, { c with dangerLogo := some scale, logoScale := some scale })
      | some s =>
          if c.logoScale ≠ some scale then
            (scale, { c with dangerLogo := some scale, logoScale := some scale })
          else (s, c)
  | LogoStyle.info =>
      match c.infoLogo with
      | none => (scale, { c with infoLogo := some scale, logoScale := some scale })
      | some s =>
          if c.logoScale ≠ some scale then
            (scale, { c with infoLogo := some scale, logoScale := some scale })
          else (s, c)
  | LogoStyle.warning =>
      match c.warningLogo with
      | none => (scale, { c with warningLogo := some scale, logoScale := some scale })
      | some s =>
          if c.logoScale ≠ some scale then
            (scale, { c with warningLogo := some scale, logoScale := some scale })
          else (s, c)
  | LogoStyle.success =>
      match c.successLogo with
      | none => (scale, { c with successLogo := some scale })
      | some s =>
          if c.logoScale ≠ some scale then
            (scale, { c with successLogo := some scale })
          else (s, c)

/-- The behaviour the claim asserts: a transparent cache is observationally an
uncached recompute-every-time implementation, whose image is always the logo
rescaled at the requested scale. -/
def uncachedLogoImage (_style : LogoStyle) (scale : ℚ) : ℚ := scale

/-- C9 failing input: construct `LogoWidget` with (minimal, 0.3), then
(danger, 0.5), then (minimal, 0.5).  The third construction finds
`MENPO_MINIMAL_LOGO` non-empty and the shared `MENPO_LOGO_SCALE` equal to
0.5 (set by the danger construction), so it does not recompute and serves the
minimal logo still rescaled at 0.3 -- diverging from the requested 0.5 and
from the uncached reference implementation.  The widget docstring promises
the scale is applied to the logo image, so this is a bug in the code, not in
the claim. -/
theorem C9_logo_cache_stale :
    (logoWidgetInit LogoStyle.minimal (1/2)
        ((logoWidgetInit LogoStyle.danger (1/2)
          ((logoWidgetInit LogoStyle.minimal (3/10) emptyLogoCache).2)).2)).1 =
      3/10 ∧
    (3/10 : ℚ) ≠ 1/2 ∧
    uncachedLogoImage LogoStyle.minimal (1/2) = 1/2 ∧
    (logoWidgetInit LogoStyle.minimal (1/2)
        ((logoWidgetInit LogoStyle.danger (1/2)
          ((logoWidgetInit LogoStyle.minimal (3/10) emptyLogoCache).2)).2)).1 ≠
      uncachedLogoImage LogoStyle.minimal (1/2) := by
  norm_num [logoWidgetInit, emptyLogoCache, uncachedLogoImage]
